import Mathlib

/-!
Verification development for `keep-to-pdf` (`src/index.js`), a batch script
converting exported Google Keep JSON notes into PDF/Markdown files with an
idempotency ledger (`processed.txt`).

Strings are modelled as `List Char`.  JavaScript regex character classes are
embedded as decidable predicates on `Char` (by code point), and the three
regexes of the script (`/Source:\s+(.*)/i`, `/# (.*)/`, `/[^a-zA-Z0-9_ ]/g`
with `/\s+/g`) are embedded as executable scanning functions whose leftmost /
greedy behaviour mirrors the JS engine on these patterns.
-/

namespace KeepToPdf

/-- Character list of a string literal (convenience for statements). -/
def str (s : String) : List Char := s.data

/-- ECMAScript `\s`: WhiteSpace ∪ LineTerminator code points:
TAB, LF, VT, FF, CR, SP, NBSP, OGHAM SP, U+2000–U+200A, LS, PS, NNBSP,
MMSP, IDSP, ZWNBSP. -/
def isJsWs (c : Char) : Bool :=
  let n := c.toNat
  (9 ≤ n && n ≤ 13) || n == 32 || n == 160 || n == 5760 ||
    (8192 ≤ n && n ≤ 8202) || n == 8232 || n == 8233 || n == 8239 ||
    n == 8287 || n == 12288 || n == 65279

/-- ECMAScript line terminators (what `.` does not match): LF, CR, LS, PS. -/
def isLineTerm (c : Char) : Bool :=
  let n := c.toNat
  n == 10 || n == 13 || n == 8232 || n == 8233

/-- ASCII lower-casing, for the `/i` flag on the ASCII pattern `Source:`. -/
def lowerAscii (c : Char) : Char :=
  if 65 ≤ c.toNat && c.toNat ≤ 90 then Char.ofNat (c.toNat + 32) else c

/-- The class `[a-zA-Z0-9_ ]`: characters kept by the slug's first
`replace(/[^a-zA-Z0-9_ ]/g, '')`. -/
def keepChar (c : Char) : Bool :=
  let n := c.toNat
  (97 ≤ n && n ≤ 122) || (65 ≤ n && n ≤ 90) || (48 ≤ n && n ≤ 57) ||
    n == 95 || n == 32

/-- `replace(/\s+/g, "_")`: each maximal run of whitespace becomes one `_`.
The flag records whether the previous character was inside a whitespace run. -/
def collapseWsAux : Bool → List Char → List Char
  | _, [] => []
  | prevWs, c :: rest =>
    if isJsWs c then
      if prevWs then collapseWsAux true rest
      else '_' :: collapseWsAux true rest
    else c :: collapseWsAux false rest

/-- `toSlug` from `index.js`:
`title.replace(/[^a-zA-Z0-9_ ]/g, '').replace(/\s+/g, "_")`. -/
def toSlug (title : List Char) : List Char :=
  collapseWsAux false (title.filter keepChar)

/-- JS `Array.prototype.join(sep)`. -/
def joinSep (sep : List Char) : List (List Char) → List Char
  | [] => []
  | [l] => l
  | l :: m :: ls => l ++ sep ++ joinSep sep (m :: ls)

/-- JS `String.prototype.split("\n")` (note `"".split("\n") = [""]`). -/
def splitNl : List Char → List (List Char)
  | [] => [[]]
  | c :: rest =>
    if c = '\n' then [] :: splitNl rest
    else
      match splitNl rest with
      | [] => [[c]]
      | l :: ls => (c :: l) :: ls

/-- Substring (contiguous infix) test: `pat` occurs somewhere in `s`. -/
def containsSub (pat : List Char) : List Char → Bool
  | [] => pat.isEmpty
  | c :: rest => pat.isPrefixOf (c :: rest) || containsSub pat rest

/-- Attempt of the regex `/Source:\s+(.*)/i` anchored at the start of `s`:
the literal `Source:` case-insensitively, then a maximal nonempty run of
`\s` (greedy, no backtracking needed since `(.*)` accepts the empty
string), then the capture `(.*)` — a maximal run of non-line-terminators.
Returns `(capture, remainder after the whole match)`. -/
def matchSourceAt (s : List Char) : Option (List Char × List Char) :=
  if (s.take 7).map lowerAscii = str "source:" then
    if ((s.drop 7).takeWhile isJsWs).isEmpty then none
    else
      some (((s.drop 7).dropWhile isJsWs).takeWhile (fun c => !isLineTerm c),
            ((s.drop 7).dropWhile isJsWs).dropWhile (fun c => !isLineTerm c))
  else none

/-- Leftmost match of `/Source:\s+(.*)/i` in `s` (the JS engine tries each
start index from 0 upward): returns
`(prefix before the match, capture, remainder after the match)`.
`noteContent.match(...)` reads the capture; `noteContent.replace(..., "")`
deletes the matched span, leaving `prefix ++ remainder`. -/
def findSource : List Char → Option (List Char × List Char × List Char)
  | [] => none
  | c :: rest =>
    match matchSourceAt (c :: rest) with
    | some (cap, post) => some ([], cap, post)
    | none => (findSource rest).map (fun t => (c :: t.1, t.2.1, t.2.2))

/-- A `labels` array entry (`{name: ...}`). -/
structure NoteLabel where
  name : List Char
deriving DecidableEq

/-- An `annotations` array entry (`{url: ...}`). -/
structure NoteAnn where
  url : List Char
deriving DecidableEq

/-- The raw JSON note.  `none` models an absent field (`undefined` /
failing the JS `in` test). -/
structure RawNote where
  title : Option (List Char)
  textContent : Option (List Char)
  labels : Option (List NoteLabel)
  annotations : Option (List NoteAnn)
deriving DecidableEq

/-- The `heading` field of a parsed note: the JS value is either the boolean
`true` ("content brings its own heading") or a string to synthesize. -/
inductive NoteHeading where
  | fromContent
  | synth (t : List Char)
deriving DecidableEq

/-- Result of `parseNote`. -/
structure ParsedNote where
  title : List Char
  heading : NoteHeading
  content : List Char
  source : List Char
  labels : List Char
  filename : List Char
deriving DecidableEq

/-- Node `path.basename`: the component after the last `/` (the paths fed in
by the glob never end in a slash). -/
def basename (p : List Char) : List Char :=
  p.foldl (fun acc c => if c = '/' then [] else acc ++ [c]) []

/-- JS `s.replace(".json", "")`: delete the first occurrence of the
substring `.json` (string pattern ⇒ first occurrence only). -/
def replaceFirstJson : List Char → List Char
  | [] => []
  | c :: rest =>
    if (c :: rest).take 5 = str ".json" then (c :: rest).drop 5
    else c :: replaceFirstJson rest

/-- `index.js` line 52: `note.title || path.basename(npath).replace(".json", "")`
(a present-but-empty string is falsy in JS, hence also falls back). -/
def titleOf (npath : List Char) (note : RawNote) : List Char :=
  match note.title with
  | some t => if t.isEmpty then replaceFirstJson (basename npath) else t
  | none => replaceFirstJson (basename npath)

/-- `index.js` line 64: the body after
`noteContent.replace(/Source:\s+(.*)/i, "")` (unchanged when there is no
match). -/
def strippedOf (body : List Char) : List Char :=
  match findSource body with
  | some (pre, _, post) => pre ++ post
  | none => body

/-- `index.js` lines 55–61: the extracted source, falling back to the
joined annotation urls, or `"N/A"`. -/
def sourceOf (note : RawNote) (body : List Char) : List Char :=
  match findSource body with
  | some (_, cap, _) => cap
  | none =>
    match note.annotations with
    | some anns => joinSep (str ", ") (anns.map NoteAnn.url)
    | none => str "N/A"

/-- `index.js` lines 68–69:
`noteContent.split("\n").slice(0, 3).join().match(/# (.*)/)` — the default
`join()` separator is `","`, and the regex is truthy exactly when the
substring `"# "` occurs (its capture `(.*)` may be empty). -/
def headingOf (title stripped : List Char) : NoteHeading :=
  if containsSub (str "# ") (joinSep [','] ((splitNl stripped).take 3)) then
    NoteHeading.fromContent
  else NoteHeading.synth title

/-- `index.js` line 72: `(note.labels || []).map(l => l.name).join(", ")`. -/
def labelsOf (note : RawNote) : List Char :=
  joinSep (str ", ") ((note.labels.getD []).map NoteLabel.name)

/-- Body of `parseNote` once `note.textContent` is known to be a string.
Mirrors `index.js` lines 47–82; the separate `match` and `replace` on the
same pattern are both derived from the one leftmost match `findSource`. -/
def parseNoteBody (npath : List Char) (note : RawNote) (body : List Char) :
    ParsedNote :=
  { title := titleOf npath note
    heading := headingOf (titleOf npath note) (strippedOf body)
    content := strippedOf body
    source := sourceOf note body
    labels := labelsOf note
    filename := toSlug (titleOf npath note) }

/-- `parseNote(npath, note)`: returns `none` when `textContent` is absent
(the JS function throws a TypeError at `noteContent.match`, caught by the
orchestrator's per-file boundary). -/
def parseNote (npath : List Char) (note : RawNote) : Option ParsedNote :=
  note.textContent.map (parseNoteBody npath note)

/-- `notePdfTpl` from `index.js` lines 113–119. -/
def notePdfTpl (pn : ParsedNote) : List Char :=
  (match pn.heading with
   | NoteHeading.fromContent => []
   | NoteHeading.synth h => str "# " ++ h ++ str "\n\n")
  ++ pn.content ++ str "\n\n----\nSource: " ++ pn.source
  ++ str "\n\nLabels: " ++ pn.labels

/-- `getProcessed`: the argument is the state of `processed.txt`
(`none` = file absent). -/
def getProcessed : Option (List Char) → List (List Char)
  | none => []
  | some contents => splitNl contents

/-- `updateProcessed`: the contents written to `processed.txt`
(flag `"w"`: full replacement of prior contents). -/
def updateProcessed (processed : List (List Char)) : List Char :=
  joinSep ['\n'] processed

/-- External effects of the run: the files under `generated/`. -/
structure World where
  pdfs : List (List Char × List Char)
  mds : List (List Char × List Char)
deriving DecidableEq

/-- Create-or-overwrite a file in a directory listing. -/
def setFile (files : List (List Char × List Char)) (name content : List Char) :
    List (List Char × List Char) :=
  files.filter (fun f => f.1 != name) ++ [(name, content)]

/-- Oracles for the three external fallible collaborators of the pipeline:
reading+JSON-parsing a note file, the PDF renderer, the Markdown write.
Each returns `.error msg` to model a thrown exception. -/
structure Env where
  read : List Char → Except (List Char) RawNote
  pdf : List Char → List Char → Except (List Char) Unit
  md : List Char → List Char → Except (List Char) Unit

/-- The `try` block of `main` for one file (lines 160–169 of `index.js`):
open → parse → template → render PDF → write Markdown.  Returns the world,
updated by whichever writes happened before a failure, and the outcome. -/
def runPipeline (env : Env) (npath : List Char) (w : World) :
    World × Except (List Char) Unit :=
  match env.read npath with
  | Except.error e => (w, Except.error e)
  | Except.ok note =>
    match parseNote npath note with
    | none => (w, Except.error (str "undefined textContent"))
    | some pn =>
      let tpl := notePdfTpl pn
      match env.pdf pn.filename tpl with
      | Except.error e => (w, Except.error e)
      | Except.ok _ =>
        let w1 : World := { w with pdfs := setFile w.pdfs pn.filename tpl }
        match env.md pn.filename pn.content with
        | Except.error e => (w1, Except.error e)
        | Except.ok _ =>
          ({ w1 with mds := setFile w1.mds pn.filename pn.content },
           Except.ok ())

/-- The mutable state of `main`'s loop: the in-memory ledger working set
(`processed`), the success counter (`count`), and the output directory. -/
structure RunState where
  processed : List (List Char)
  count : Nat
  world : World
deriving DecidableEq

/-- One iteration of `main`'s `for` loop: skip if already in the working
set, otherwise run the pipeline; on success push the path and bump the
counter, on a caught error log and keep ledger state unchanged. -/
def mainStep (env : Env) (st : RunState) (npath : List Char) : RunState :=
  if st.processed.contains npath then st
  else
    match runPipeline env npath st.world with
    | (w1, Except.ok _) =>
      { processed := st.processed ++ [npath], count := st.count + 1, world := w1 }
    | (w1, Except.error _) => { st with world := w1 }

/-- `main`'s loop over the enumerated note files. -/
def mainLoop (env : Env) (st : RunState) : List (List Char) → RunState
  | [] => st
  | f :: rest => mainLoop env (mainStep env st f) rest

/-- Shape of the steps at the tail of an async JS function: an `await`ed
promise (completion ordered before the next step), a fire-and-forget call
(completion unordered with respect to later steps), a synchronous step, or
`process.exit` (immediate termination, pending async work not drained). -/
inductive JsStep where
  | awaitAsync (name : List Char)
  | fireAsync (name : List Char)
  | syncStep (name : List Char)
  | exitProc
deriving DecidableEq

/-- The tail of `main` after the loop (`index.js` lines 179–181):
`updateProcessed(processed); console.log(...); process.exit(0);` —
the returned promise of `updateProcessed` is not awaited. -/
def mainShutdown : List JsStep :=
  [JsStep.fireAsync (str "updateProcessed"),
   JsStep.syncStep (str "console.log"),
   JsStep.exitProc]

/-- Async bookkeeping: operations started but not completed, and completed
operations. -/
structure AsyncState where
  pending : List (List Char)
  completed : List (List Char)
deriving DecidableEq

/-- One admissible (adversarial) schedule of a step sequence: a pending
fire-and-forget operation is never granted completion before the process
exits.  Node's `process.exit` terminates immediately without waiting for
outstanding I/O, so this schedule is legal; only an `await` forces the
operation into `completed` before execution proceeds. -/
def execAdversarial (st : AsyncState) : List JsStep → AsyncState
  | [] => st
  | JsStep.awaitAsync n :: rest =>
    execAdversarial { st with completed := st.completed ++ [n] } rest
  | JsStep.fireAsync n :: rest =>
    execAdversarial { st with pending := st.pending ++ [n] } rest
  | JsStep.syncStep _ :: rest => execAdversarial st rest
  | JsStep.exitProc :: _ => st

/-- The character class `[A-Za-z0-9_]` of the slug property (§8 of the
spec): what the slug output is claimed to consist of. -/
def isSlugOut (c : Char) : Bool :=
  let n := c.toNat
  (97 ≤ n && n ≤ 122) || (65 ≤ n && n ≤ 90) || (48 ≤ n && n ≤ 57) || n == 95

/-- A well-formed note used by the orchestrator witnesses. -/
def noteGood : RawNote := ⟨some (str "Good"), some (str "hello"), none, none⟩

/-- Witness environment: reading `./keep/bad.json` throws, everything else
succeeds. -/
def envW1 : Env where
  read := fun p =>
    if p == str "./keep/bad.json" then Except.error (str "bad json")
    else Except.ok noteGood
  pdf := fun _ _ => Except.ok ()
  md := fun _ _ => Except.ok ()

/-- Witness initial state: empty ledger, zero counter, empty output dir. -/
def stW1 : RunState := ⟨[], 0, ⟨[], []⟩⟩

/-- Witness environment: the PDF render succeeds but the Markdown write
throws. -/
def envW10 : Env where
  read := fun _ => Except.ok noteGood
  pdf := fun _ _ => Except.ok ()
  md := fun _ _ => Except.error (str "disk full")

/-- Witness initial state for the post-render-failure scenario. -/
def stW10 : RunState := ⟨[str "./keep/other.json"], 4, ⟨[], []⟩⟩

/-- The parsed note produced from `noteGood` in the witness scenario. -/
def pnW10 : ParsedNote := parseNoteBody (str "./keep/n.json") noteGood (str "hello")

/-- A note path used by the parser fixtures. -/
def npathW : List Char := str "./keep/n.json"

/-- A note whose body holds two `Source:` lines. -/
def noteC3 : RawNote :=
  ⟨some (str "T"), some (str "Source: a\nSource: b"), none, none⟩

/-- A note whose body holds a mid-line, upper-case `SOURCE:` match. -/
def noteC3w : RawNote :=
  ⟨some (str "T"), some (str "x SOURCE: http://a.com\nrest"), none, none⟩

/-- The parse of `noteC3w`. -/
def pnC3w : ParsedNote :=
  parseNoteBody npathW noteC3w (str "x SOURCE: http://a.com\nrest")

/-- A source-less note carrying two annotations. -/
def noteC4a : RawNote :=
  ⟨some (str "T"), some (str "hello"), none, some [⟨str "a"⟩, ⟨str "b"⟩]⟩

/-- A source-less note with no annotations field. -/
def noteC4b : RawNote := ⟨some (str "T"), some (str "hello"), none, none⟩

/-- The parse of `noteC4a`. -/
def pnC4a : ParsedNote := parseNoteBody npathW noteC4a (str "hello")

/-- The parse of `noteC4b`. -/
def pnC4b : ParsedNote := parseNoteBody npathW noteC4b (str "hello")

/-- A note with no `title` field. -/
def noteC5 : RawNote := ⟨none, some (str "hello"), none, none⟩

/-- The parse of `noteC5` at the fixture path. -/
def pnC5 : ParsedNote := parseNoteBody npathW noteC5 (str "hello")

/-- A note whose body starts with a Markdown heading. -/
def noteC6a : RawNote :=
  ⟨some (str "Foo"), some (str "# Title\nbody text"), none, none⟩

/-- The parse of `noteC6a`. -/
def pnC6a : ParsedNote := parseNoteBody npathW noteC6a (str "# Title\nbody text")

/-- A note whose body has no heading marker. -/
def noteC6b : RawNote := ⟨some (str "Foo"), some (str "plain text"), none, none⟩

/-- The parse of `noteC6b`. -/
def pnC6b : ParsedNote := parseNoteBody npathW noteC6b (str "plain text")

/-- A parsed note used by the templater witness. -/
def pnC7 : ParsedNote :=
  ⟨str "T", NoteHeading.synth (str "T"), str "line1" ++ '\n' :: str "line2",
   str "http://s", str "a, b", str "T"⟩

/-! ## Helper lemmas -/

theorem mem_collapseWsAux {c : Char} :
    ∀ (b : Bool) (l : List Char), c ∈ collapseWsAux b l →
      c = '_' ∨ (c ∈ l ∧ isJsWs c = false) := by
  intro b l
  induction l generalizing b with
  | nil => intro h; cases h
  | cons d rest ih =>
    intro h
    by_cases hd : isJsWs d
    · have h' : c = '_' ∨ c ∈ collapseWsAux true rest := by
        cases b with
        | true =>
          simp only [collapseWsAux, hd] at h
          exact Or.inr (by simpa using h)
        | false =>
          simp only [collapseWsAux, hd] at h
          simpa using h
      rcases h' with h1 | h1
      · exact Or.inl h1
      · rcases ih true h1 with h2 | ⟨hm, hw⟩
        · exact Or.inl h2
        · exact Or.inr ⟨List.mem_cons_of_mem d hm, hw⟩
    · simp only [collapseWsAux, hd, Bool.false_eq_true, if_false, List.mem_cons] at h
      rcases h with h1 | h1
      · subst h1; exact Or.inr ⟨List.mem_cons_self c rest, by simpa using hd⟩
      · rcases ih false h1 with h2 | ⟨hm, hw⟩
        · exact Or.inl h2
        · exact Or.inr ⟨List.mem_cons_of_mem d hm, hw⟩

theorem keep_not_ws_slugOut {c : Char} (h1 : keepChar c = true)
    (h2 : isJsWs c = false) : isSlugOut c = true := by
  simp only [keepChar, isJsWs, isSlugOut, Bool.or_eq_true, Bool.and_eq_true,
    decide_eq_true_eq, beq_iff_eq, Bool.or_eq_false_iff, Bool.and_eq_false_iff,
    decide_eq_false_iff_not, beq_eq_false_iff_ne, ne_eq, not_le] at h1 h2 ⊢
  omega

theorem slugOut_keep {c : Char} (h : isSlugOut c = true) : keepChar c = true := by
  simp only [keepChar, isSlugOut, Bool.or_eq_true, Bool.and_eq_true,
    decide_eq_true_eq, beq_iff_eq] at h ⊢
  omega

theorem slugOut_not_ws {c : Char} (h : isSlugOut c = true) : isJsWs c = false := by
  simp only [isJsWs, isSlugOut, Bool.or_eq_true, Bool.and_eq_true,
    decide_eq_true_eq, beq_iff_eq, Bool.or_eq_false_iff, Bool.and_eq_false_iff,
    decide_eq_false_iff_not, beq_eq_false_iff_ne, ne_eq, not_le] at h ⊢
  omega

theorem collapseWsAux_of_no_ws {l : List Char}
    (h : ∀ c ∈ l, isJsWs c = false) : ∀ b, collapseWsAux b l = l := by
  induction l with
  | nil => intro b; rfl
  | cons d rest ih =>
    intro b
    rw [collapseWsAux, if_neg (by simp [h d (List.mem_cons_self d rest)])]
    rw [ih (fun c hc => h c (List.mem_cons_of_mem d hc)) false]

theorem toSlug_chars {c : Char} {t : List Char} (h : c ∈ toSlug t) :
    isSlugOut c = true := by
  rcases mem_collapseWsAux false (t.filter keepChar) h with h' | ⟨hm, hw⟩
  · subst h'; rfl
  · exact keep_not_ws_slugOut (List.of_mem_filter hm) hw

theorem splitNl_ne_nil (s : List Char) : splitNl s ≠ [] := by
  cases s with
  | nil => simp [splitNl]
  | cons c rest =>
    rw [splitNl]
    by_cases hc : c = '\n'
    · rw [if_pos hc]; simp
    · rw [if_neg hc]
      rcases splitNl rest with _ | ⟨l, ls⟩ <;> simp

theorem joinSep_splitNl (s : List Char) : joinSep ['\n'] (splitNl s) = s := by
  induction s with
  | nil => rfl
  | cons c rest ih =>
    rcases hsp : splitNl rest with _ | ⟨l, ls⟩
    · exact absurd hsp (splitNl_ne_nil rest)
    · rw [hsp] at ih
      by_cases hc : c = '\n'
      · subst hc
        rw [splitNl, if_pos rfl, hsp, joinSep]
        simpa using ih
      · rw [splitNl, if_neg hc, hsp]
        cases ls with
        | nil =>
          rw [joinSep] at ih ⊢
          rw [ih]
        | cons m ms =>
          rw [joinSep] at ih ⊢
          simp only [List.cons_append]
          rw [ih]

theorem takeWhile_append_of {p : Char → Bool} {xs ys : List Char}
    (h1 : ∀ c ∈ xs, p c = true) (h2 : ∀ c ∈ ys.take 1, p c = false) :
    (xs ++ ys).takeWhile p = xs := by
  induction xs with
  | nil =>
    cases ys with
    | nil => rfl
    | cons y ys' =>
      simp only [List.nil_append]
      rw [List.takeWhile_cons, h2 y (by simp)]
      simp
  | cons x xs' ih =>
    simp only [List.cons_append]
    rw [List.takeWhile_cons, h1 x (List.mem_cons_self x xs')]
    simp only [if_true]
    rw [ih (fun c hc => h1 c (List.mem_cons_of_mem x hc))]

theorem dropWhile_append_of {p : Char → Bool} {xs ys : List Char}
    (h1 : ∀ c ∈ xs, p c = true) (h2 : ∀ c ∈ ys.take 1, p c = false) :
    (xs ++ ys).dropWhile p = ys := by
  induction xs with
  | nil =>
    cases ys with
    | nil => rfl
    | cons y ys' =>
      simp only [List.nil_append]
      rw [List.dropWhile_cons, h2 y (by simp)]
      simp
  | cons x xs' ih =>
    simp only [List.cons_append]
    rw [List.dropWhile_cons, h1 x (List.mem_cons_self x xs')]
    simp only [if_true]
    exact ih (fun c hc => h1 c (List.mem_cons_of_mem x hc))

theorem matchSourceAt_decomp {src ws cap post : List Char}
    (hsrc : src.map lowerAscii = str "source:")
    (hws1 : ws ≠ []) (hws2 : ∀ c ∈ ws, isJsWs c = true)
    (hwsmax : ∀ c ∈ (cap ++ post).take 1, isJsWs c = false)
    (hcap : ∀ c ∈ cap, isLineTerm c = false)
    (hcapmax : ∀ c ∈ post.take 1, isLineTerm c = true) :
    matchSourceAt (src ++ ws ++ cap ++ post) = some (cap, post) := by
  have hlen : src.length = 7 := by
    have h := congrArg List.length hsrc
    simpa using h
  have htake : (src ++ (ws ++ (cap ++ post))).take 7 = src :=
    List.take_left' hlen
  have hdrop : (src ++ (ws ++ (cap ++ post))).drop 7 = ws ++ (cap ++ post) :=
    List.drop_left' hlen
  have htw : (ws ++ (cap ++ post)).takeWhile isJsWs = ws :=
    takeWhile_append_of hws2 hwsmax
  have hdw : (ws ++ (cap ++ post)).dropWhile isJsWs = cap ++ post :=
    dropWhile_append_of hws2 hwsmax
  have hwse : ws.isEmpty = false := by
    cases ws with
    | nil => exact absurd rfl hws1
    | cons _ _ => rfl
  have htw2 : (cap ++ post).takeWhile (fun c => !isLineTerm c) = cap :=
    takeWhile_append_of (fun c hc => by simp [hcap c hc])
      (fun c hc => by simp [hcapmax c hc])
  have hdw2 : (cap ++ post).dropWhile (fun c => !isLineTerm c) = post :=
    dropWhile_append_of (fun c hc => by simp [hcap c hc])
      (fun c hc => by simp [hcapmax c hc])
  rw [matchSourceAt]
  simp only [List.append_assoc]
  rw [htake, hdrop, if_pos hsrc, htw, hdw, hwse, htw2, hdw2]
  simp

theorem findSource_eq_some {l cap post : List Char}
    (h : matchSourceAt l = some (cap, post)) :
    findSource l = some ([], cap, post) := by
  cases l with
  | nil =>
    rw [show matchSourceAt ([] : List Char) = none from rfl] at h
    exact Option.noConfusion h
  | cons c rest =>
    rw [findSource, h]

theorem findSource_cons_none {c : Char} {rest : List Char}
    (h : matchSourceAt (c :: rest) = none) :
    findSource (c :: rest) =
      (findSource rest).map (fun t => (c :: t.1, t.2.1, t.2.2)) := by
  rw [findSource, h]

theorem findSource_decomp {pre src ws cap post : List Char}
    (hsrc : src.map lowerAscii = str "source:")
    (hleft : ∀ i < pre.length,
      matchSourceAt ((pre ++ src ++ ws ++ cap ++ post).drop i) = none)
    (hws1 : ws ≠ []) (hws2 : ∀ c ∈ ws, isJsWs c = true)
    (hwsmax : ∀ c ∈ (cap ++ post).take 1, isJsWs c = false)
    (hcap : ∀ c ∈ cap, isLineTerm c = false)
    (hcapmax : ∀ c ∈ post.take 1, isLineTerm c = true) :
    findSource (pre ++ src ++ ws ++ cap ++ post) = some (pre, cap, post) := by
  induction pre with
  | nil =>
    simp only [List.nil_append]
    exact findSource_eq_some
      (matchSourceAt_decomp hsrc hws1 hws2 hwsmax hcap hcapmax)
  | cons p pre' ih =>
    have h0 : matchSourceAt (p :: (pre' ++ src ++ ws ++ cap ++ post)) = none := by
      have h := hleft 0 (by simp)
      simpa using h
    have hleft' : ∀ i < pre'.length,
        matchSourceAt ((pre' ++ src ++ ws ++ cap ++ post).drop i) = none := by
      intro i hi
      have h := hleft (i + 1) (by simpa using Nat.succ_lt_succ hi)
      simpa using h
    simp only [List.cons_append]
    rw [findSource_cons_none h0]
    have hrec := ih hleft'
    simp only [List.cons_append] at hrec
    rw [hrec]
    rfl

theorem isPrefixOf_pair_append {a b sep : Char} (hne1 : sep ≠ a)
    (hne2 : sep ≠ b) (x y : List Char) :
    List.isPrefixOf [a, b] (x ++ sep :: y) = List.isPrefixOf [a, b] x := by
  cases x with
  | nil =>
    simp only [List.nil_append, List.isPrefixOf]
    simp [Ne.symm hne1]
  | cons d x' =>
    cases x' with
    | nil =>
      simp only [List.cons_append, List.nil_append, List.isPrefixOf]
      simp [Ne.symm hne2]
    | cons e x'' => simp [List.isPrefixOf]

theorem containsSub_pair_append {a b sep : Char} (hne1 : sep ≠ a)
    (hne2 : sep ≠ b) (x y : List Char) :
    containsSub [a, b] (x ++ sep :: y) =
      (containsSub [a, b] x || containsSub [a, b] y) := by
  induction x with
  | nil =>
    simp only [List.nil_append, containsSub, List.isPrefixOf]
    simp [Ne.symm hne1, containsSub]
  | cons d x' ih =>
    simp only [List.cons_append, containsSub, List.append_eq]
    rw [ih]
    rw [show (d :: (x' ++ sep :: y)) = ((d :: x') ++ sep :: y) from rfl,
      isPrefixOf_pair_append hne1 hne2]
    rw [Bool.or_assoc]

theorem containsSub_pair_joinSep {a b sep : Char} (hne1 : sep ≠ a)
    (hne2 : sep ≠ b) :
    ∀ ls : List (List Char),
      containsSub [a, b] (joinSep [sep] ls) = true ↔
        ∃ l ∈ ls, containsSub [a, b] l = true := by
  intro ls
  induction ls with
  | nil => simp [joinSep, containsSub]
  | cons l ms ih =>
    cases ms with
    | nil => simp [joinSep]
    | cons m ms' =>
      rw [joinSep]
      rw [show (l ++ [sep] ++ joinSep [sep] (m :: ms')) =
        (l ++ sep :: joinSep [sep] (m :: ms')) from by simp]
      rw [containsSub_pair_append hne1 hne2]
      simp only [Bool.or_eq_true, ih, List.mem_cons]
      constructor
      · rintro (h | ⟨w, hw, hc⟩)
        · exact ⟨l, Or.inl rfl, h⟩
        · exact ⟨w, Or.inr hw, hc⟩
      · rintro ⟨w, hw | hw, hc⟩
        · exact Or.inl (hw ▸ hc)
        · exact Or.inr ⟨w, hw, hc⟩

theorem splitNl_cons_nl (y : List Char) : splitNl ('\n' :: y) = [] :: splitNl y :=
  rfl

theorem splitNl_append (x y : List Char) :
    splitNl (x ++ '\n' :: y) = splitNl x ++ splitNl y := by
  induction x with
  | nil =>
    simp only [List.nil_append]
    rw [splitNl_cons_nl]
    rfl
  | cons c x' ih =>
    by_cases hc : c = '\n'
    · subst hc
      simp only [List.cons_append]
      rw [splitNl_cons_nl, splitNl_cons_nl, ih]
      rfl
    · simp only [List.cons_append]
      rw [splitNl, if_neg hc, splitNl, if_neg hc, ih]
      rcases hsp : splitNl x' with _ | ⟨l, ls⟩
      · exact absurd hsp (splitNl_ne_nil x')
      · simp

theorem splitNl_single {x : List Char} (h : '\n' ∉ x) : splitNl x = [x] := by
  induction x with
  | nil => rfl
  | cons c x' ih =>
    have hc : c ≠ '\n' := fun hc => h (hc ▸ List.mem_cons_self c x')
    rw [splitNl, if_neg hc, ih (fun hm => h (List.mem_cons_of_mem c hm))]

theorem not_nl_append {x y : List Char} (hx : '\n' ∉ x) (hy : '\n' ∉ y) :
    '\n' ∉ x ++ y := by
  intro h
  rcases List.mem_append.mp h with h | h
  · exact hx h
  · exact hy h

theorem parseNote_some {npath : List Char} {note : RawNote} {body : List Char}
    {pn : ParsedNote} (hb : note.textContent = some body)
    (hp : parseNote npath note = some pn) :
    pn = parseNoteBody npath note body := by
  rw [parseNote, hb] at hp
  simp only [Option.map_some'] at hp
  exact (Option.some_inj.mp hp).symm

theorem splitNl_tail_block (content source labels : List Char)
    (hs : '\n' ∉ source) (hl : '\n' ∉ labels) :
    splitNl (content ++ str "\n\n----\nSource: " ++ source ++
        str "\n\nLabels: " ++ labels) =
      splitNl content ++
        [[], str "----", str "Source: " ++ source, [],
         str "Labels: " ++ labels] := by
  have e1 : str "\n\n----\nSource: " =
      '\n' :: '\n' :: (str "----" ++ '\n' :: str "Source: ") := rfl
  have e2 : str "\n\nLabels: " = '\n' :: '\n' :: str "Labels: " := rfl
  rw [e1, e2]
  simp only [List.append_assoc, List.cons_append]
  rw [splitNl_append, splitNl_cons_nl]
  rw [show str "----" ++ '\n' :: (str "Source: " ++ (source ++
      '\n' :: '\n' :: (str "Labels: " ++ labels))) =
    str "----" ++ '\n' :: ((str "Source: " ++ source) ++
      '\n' :: ('\n' :: (str "Labels: " ++ labels))) from by
      simp [List.append_assoc]]
  rw [splitNl_append, splitNl_append, splitNl_cons_nl]
  rw [show splitNl (str "----") = [str "----"] from rfl]
  rw [splitNl_single (not_nl_append (by decide) hs)]
  rw [splitNl_single (not_nl_append (by decide) hl)]
  simp

/-! ## Claim theorems -/

/-- C3 counterexample: for the body `"Source: a\nSource: b"` (which contains
a `Source:` line with trailing text) the parser extracts `"a"` and removes
only the first matched span, so the resulting content still contains a
`Source:` line — refuting the claim's final clause. -/
theorem source_line_remains_cex :
    (parseNote npathW noteC3).map ParsedNote.source = some (str "a") ∧
      (parseNote npathW noteC3).map ParsedNote.content =
        some ('\n' :: str "Source: b") ∧
      (parseNote npathW noteC3).map
        (fun pn => containsSub (str "Source:") pn.content) = some true := by
  decide

/-- C3 amended: when the body decomposes as
`pre ++ src ++ ws ++ cap ++ post` where `src` is a case variant of
`Source:`, `ws` a nonempty maximal whitespace run, `cap` a maximal run of
non-line-terminators, and no earlier position matches the pattern, the
parser sets the source to `cap` and deletes exactly the matched span
(`src ++ ws ++ cap`) from the body — text before the match on that line
and any later `Source:` occurrences remain in the content. -/
theorem source_extraction_amended (npath : List Char) (note : RawNote)
    (pn : ParsedNote) (pre src ws cap post : List Char)
    (hbody : note.textContent = some (pre ++ src ++ ws ++ cap ++ post))
    (hsrc : src.map lowerAscii = str "source:")
    (hleft : ∀ i < pre.length,
      matchSourceAt ((pre ++ src ++ ws ++ cap ++ post).drop i) = none)
    (hws1 : ws ≠ []) (hws2 : ∀ c ∈ ws, isJsWs c = true)
    (hwsmax : ∀ c ∈ (cap ++ post).take 1, isJsWs c = false)
    (hcap : ∀ c ∈ cap, isLineTerm c = false)
    (hcapmax : ∀ c ∈ post.take 1, isLineTerm c = true)
    (hp : parseNote npath note = some pn) :
    pn.source = cap ∧ pn.content = pre ++ post := by
  have hfs := findSource_decomp hsrc hleft hws1 hws2 hwsmax hcap hcapmax
  have hpn := parseNote_some hbody hp
  subst hpn
  constructor
  · show sourceOf note (pre ++ src ++ ws ++ cap ++ post) = cap
    rw [sourceOf, hfs]
  · show strippedOf (pre ++ src ++ ws ++ cap ++ post) = pre ++ post
    rw [strippedOf, hfs]

/-- C3 amended witness: the theorem applied to the concrete body
`"x SOURCE: http://a.com\nrest"`. -/
theorem source_extraction_amended_wit :
    pnC3w.source = str "http://a.com" ∧
      pnC3w.content = str "x " ++ '\n' :: str "rest" :=
  source_extraction_amended npathW noteC3w pnC3w (str "x ") (str "SOURCE:")
    [' '] (str "http://a.com") ('\n' :: str "rest") (by decide) (by decide)
    (by decide) (by decide) (by decide) (by decide) (by decide) (by decide)
    rfl

/-- C4: when the body has no `Source:` match, the parser leaves the content
unchanged and sets the source to the `", "`-joined annotation urls when the
`annotations` field is present, and to `"N/A"` when it is absent. -/
theorem source_fallback_annotations (npath : List Char) (note : RawNote)
    (body : List Char) (pn : ParsedNote)
    (hb : note.textContent = some body)
    (hns : findSource body = none)
    (hp : parseNote npath note = some pn) :
    pn.content = body ∧
      pn.source = (match note.annotations with
        | some anns => joinSep (str ", ") (anns.map NoteAnn.url)
        | none => str "N/A") := by
  have hpn := parseNote_some hb hp
  subst hpn
  constructor
  · show strippedOf body = body
    rw [strippedOf, hns]
  · show sourceOf note body = _
    rw [sourceOf, hns]

/-- C4 witness: the theorem applied to a note with annotations
`[{url:"a"},{url:"b"}]` and to a note without an annotations field. -/
theorem source_fallback_annotations_wit :
    (pnC4a.content = str "hello" ∧ pnC4a.source = str "a, b") ∧
      (pnC4b.content = str "hello" ∧ pnC4b.source = str "N/A") := by
  have ha := source_fallback_annotations npathW noteC4a (str "hello") pnC4a
    rfl rfl rfl
  have hb := source_fallback_annotations npathW noteC4b (str "hello") pnC4b
    rfl rfl rfl
  exact ⟨⟨ha.1, ha.2.trans (by decide)⟩, ⟨hb.1, hb.2.trans (by decide)⟩⟩

/-- C5 counterexample: for the input path `./keep/a.jsonb.json` with an
absent title, the code's `replace(".json", "")` removes the first
occurrence of the substring `.json` — yielding `"ab.json"` — rather than
the extension, which would yield `"a.jsonb"`. -/
theorem title_first_json_occurrence_cex :
    (parseNote (str "./keep/a.jsonb.json") noteC5).map ParsedNote.title =
        some (str "ab.json") ∧
      str "ab.json" ≠ str "a.jsonb" := by
  decide

/-- C5 amended: the parsed title equals the note's `title` field when that
field is present and non-empty, and otherwise equals the input file's base
name with the first occurrence of the substring `".json"` removed. -/
theorem title_fallback_amended (npath : List Char) (note : RawNote)
    (body : List Char) (pn : ParsedNote)
    (hb : note.textContent = some body)
    (hp : parseNote npath note = some pn) :
    (∀ t, note.title = some t → t.isEmpty = false → pn.title = t) ∧
      (note.title = none ∨ note.title = some [] →
        pn.title = replaceFirstJson (basename npath)) := by
  have hpn := parseNote_some hb hp
  subst hpn
  constructor
  · intro t ht hne
    show titleOf npath note = t
    rw [titleOf, ht]
    simp [hne]
  · intro h
    show titleOf npath note = replaceFirstJson (basename npath)
    rcases h with h | h
    · rw [titleOf, h]
    · rw [titleOf, h]
      simp

/-- C5 amended witness: the theorem applied to a note with title `"T"` and
to a title-less note at path `./keep/n.json` (fallback `"n"`). -/
theorem title_fallback_amended_wit :
    pnC4a.title = str "T" ∧ pnC5.title = str "n" := by
  have h1 := title_fallback_amended npathW noteC4a (str "hello") pnC4a rfl rfl
  have h2 := title_fallback_amended npathW noteC5 (str "hello") pnC5 rfl rfl
  exact ⟨h1.1 (str "T") rfl rfl, (h2.2 (Or.inl rfl)).trans (by decide)⟩

/-- C6: the parser sets `heading` to the boolean `true` exactly when the
marker `"# "` occurs in one of the first three lines of the (possibly
source-stripped) body — the code inspects their comma-join, which neither
creates nor hides an occurrence of the two-character marker — and
otherwise sets `heading` to the note's title string. -/
theorem heading_detection (npath : List Char) (note : RawNote)
    (body : List Char) (pn : ParsedNote)
    (hb : note.textContent = some body)
    (hp : parseNote npath note = some pn) :
    (pn.heading = NoteHeading.fromContent ↔
        ∃ l ∈ (splitNl pn.content).take 3, containsSub (str "# ") l = true) ∧
      (pn.heading ≠ NoteHeading.fromContent →
        pn.heading = NoteHeading.synth pn.title) := by
  have hpn := parseNote_some hb hp
  subst hpn
  have hjoin := @containsSub_pair_joinSep '#' ' ' ','
    (by decide) (by decide) ((splitNl (strippedOf body)).take 3)
  have hcont : (parseNoteBody npath note body).content = strippedOf body := rfl
  have hhead : (parseNoteBody npath note body).heading =
      headingOf (titleOf npath note) (strippedOf body) := rfl
  have htitle : (parseNoteBody npath note body).title = titleOf npath note := rfl
  rw [hcont, hhead, htitle, headingOf]
  by_cases hc : containsSub (str "# ")
      (joinSep [','] ((splitNl (strippedOf body)).take 3)) = true
  · rw [if_pos hc]
    exact ⟨⟨fun _ => hjoin.mp hc, fun _ => rfl⟩, fun hne => absurd rfl hne⟩
  · rw [if_neg hc]
    exact ⟨⟨fun h => NoteHeading.noConfusion h,
        fun hex => absurd (hjoin.mpr hex) hc⟩,
      fun _ => rfl⟩

/-- C6 witness: the theorem applied to the bodies `"# Title\nbody text"`
(content supplies its own heading) and `"plain text"` with title `"Foo"`
(heading synthesized from the title). -/
theorem heading_detection_wit :
    pnC6a.heading = NoteHeading.fromContent ∧
      pnC6b.heading = NoteHeading.synth (str "Foo") := by
  constructor
  · exact (heading_detection npathW noteC6a (str "# Title" ++ '\n' ::
      str "body text") pnC6a rfl rfl).1.mpr ⟨str "# Title", by decide, by decide⟩
  · exact ((heading_detection npathW noteC6b (str "plain text") pnC6b rfl
      rfl).2 (by decide)).trans (by decide)

/-- C7: the templater's output has exactly the claimed line structure: a
`"# {heading}"` line and a blank line when the heading is not the boolean
`true` (nothing otherwise), then the body's lines, then a blank line, the
rule `----`, a `"Source: {source}"` line, a blank line, and a
`"Labels: {labels}"` line; it is a total function of the parsed note. -/
theorem template_layout (pn : ParsedNote)
    (hh : ∀ h, pn.heading = NoteHeading.synth h → '\n' ∉ h)
    (hs : '\n' ∉ pn.source) (hl : '\n' ∉ pn.labels) :
    splitNl (notePdfTpl pn) =
      (match pn.heading with
       | NoteHeading.fromContent => []
       | NoteHeading.synth h => [str "# " ++ h, []]) ++
        splitNl pn.content ++
        [[], str "----", str "Source: " ++ pn.source, [],
         str "Labels: " ++ pn.labels] := by
  rcases hpn : pn.heading with _ | h
  · rw [notePdfTpl, hpn]
    simp only [List.nil_append]
    exact splitNl_tail_block pn.content pn.source pn.labels hs hl
  · have hline : '\n' ∉ str "# " ++ h :=
      not_nl_append (by decide) (hh h hpn)
    rw [notePdfTpl, hpn]
    simp only []
    rw [show str "# " ++ h ++ str "\n\n" ++ pn.content =
      (str "# " ++ h) ++ '\n' :: ('\n' :: pn.content) from by
        rw [show str "\n\n" = ['\n', '\n'] from rfl]
        simp [List.append_assoc]]
    rw [show (str "# " ++ h) ++ '\n' :: ('\n' :: pn.content) ++
        str "\n\n----\nSource: " ++ pn.source ++ str "\n\nLabels: " ++
        pn.labels =
      (str "# " ++ h) ++ '\n' :: ('\n' :: (pn.content ++
        str "\n\n----\nSource: " ++ pn.source ++ str "\n\nLabels: " ++
        pn.labels)) from by simp [List.append_assoc]]
    rw [splitNl_append, splitNl_cons_nl, splitNl_single hline,
      splitNl_tail_block pn.content pn.source pn.labels hs hl]
    simp

/-- C7 witness: the theorem applied to a concrete parsed note with a
synthesized heading and a two-line body. -/
theorem template_layout_wit :
    splitNl (notePdfTpl pnC7) =
      [str "# T", [], str "line1", str "line2", [], str "----",
       str "Source: http://s", [], str "Labels: a, b"] := by
  have h := template_layout pnC7
    (fun h hh => by
      have h1 : NoteHeading.synth (str "T") = NoteHeading.synth h := hh
      have h2 : str "T" = h := by injection h1
      rw [← h2]; decide)
    (by decide) (by decide)
  exact h.trans (by decide)

/-- C8: the slug generator is idempotent (`toSlug (toSlug x) = toSlug x`
for every input string) and its output contains only characters in
`[A-Za-z0-9_]`. -/
theorem slug_idempotent_charset (x : List Char) :
    toSlug (toSlug x) = toSlug x ∧ ∀ c ∈ toSlug x, isSlugOut c = true := by
  refine ⟨?_, fun c hc => toSlug_chars hc⟩
  have hkeep : (toSlug x).filter keepChar = toSlug x :=
    List.filter_eq_self.mpr (fun c hc => slugOut_keep (toSlug_chars hc))
  have hnows : ∀ c ∈ toSlug x, isJsWs c = false :=
    fun c hc => slugOut_not_ws (toSlug_chars hc)
  show collapseWsAux false ((toSlug x).filter keepChar) = toSlug x
  rw [hkeep, collapseWsAux_of_no_ws hnows false]

/-- C8 witness: the theorem applied at the concrete input `"a- b!"`,
discharging the membership hypothesis at `'a'`. -/
theorem slug_idempotent_charset_wit :
    toSlug (toSlug (str "a- b!")) = toSlug (str "a- b!") ∧
      isSlugOut 'a' = true :=
  ⟨(slug_idempotent_charset (str "a- b!")).1,
   (slug_idempotent_charset (str "a- b!")).2 'a' (by decide)⟩

/-- C9 counterexample: starting from a missing `processed.txt`, the original
loaded set is empty, but after `save(load())` (applied twice) the reloaded
set contains the empty string — `"".split("\n")` is `[""]`, not `[]` — so
the reloaded set does not equal the original set. -/
theorem ledger_roundtrip_missing_cex :
    ([] : List Char) ∈
        getProcessed (some (updateProcessed (getProcessed
          (some (updateProcessed (getProcessed none)))))) ∧
      ([] : List Char) ∉ getProcessed (none : Option (List Char)) := by
  decide

/-- C9 amended: when `processed.txt` exists, `save(load())` applied twice
produces a file whose reloaded list equals the originally loaded list (no
duplication, no loss); and `load` returns the empty set when the file does
not exist.  (Starting from a missing file, the round-trip instead yields
the singleton containing the empty string.) -/
theorem ledger_roundtrip_amended (s : List Char) :
    getProcessed (some (updateProcessed (getProcessed
        (some (updateProcessed (getProcessed (some s))))))) =
      getProcessed (some s) ∧
      getProcessed (none : Option (List Char)) = [] := by
  refine ⟨?_, rfl⟩
  show splitNl (joinSep ['\n'] (splitNl (joinSep ['\n'] (splitNl s)))) = splitNl s
  rw [joinSep_splitNl, joinSep_splitNl]

/-- C2 (evidence for the code bug): in `main`'s shutdown sequence the call
to `updateProcessed` is fired but not awaited before `process.exit(0)`, so
there is an admissible schedule in which the process exits while the ledger
write is still pending — its completion is not guaranteed before
termination.  Had the call been awaited, completion before exit would be
forced (second and third conjuncts). -/
theorem ledger_write_not_awaited_before_exit :
    (execAdversarial ⟨[], []⟩ mainShutdown).completed.contains
        (str "updateProcessed") = false ∧
      (execAdversarial ⟨[], []⟩ mainShutdown).pending =
        [str "updateProcessed"] ∧
      (execAdversarial ⟨[], []⟩
          [JsStep.awaitAsync (str "updateProcessed"),
           JsStep.syncStep (str "console.log"),
           JsStep.exitProc]).completed.contains (str "updateProcessed") =
        true := by
  decide

/-- C1: one iteration of the orchestrator loop on a not-yet-processed file:
if any pipeline stage fails, the error is caught, the path is not added to
the working set, the counter is not incremented, and the loop continues
with the remaining files; if the pipeline completes, the path is appended
to the working set and the counter is incremented by one before the loop
continues. -/
theorem orchestrator_per_file_isolation (env : Env) (st : RunState)
    (npath : List Char) (rest : List (List Char))
    (h : st.processed.contains npath = false) :
    (∀ e, (runPipeline env npath st.world).2 = Except.error e →
        mainLoop env st (npath :: rest) =
          mainLoop env { st with world := (runPipeline env npath st.world).1 }
            rest) ∧
      (∀ u, (runPipeline env npath st.world).2 = Except.ok u →
        mainLoop env st (npath :: rest) =
          mainLoop env
            { processed := st.processed ++ [npath], count := st.count + 1,
              world := (runPipeline env npath st.world).1 } rest) := by
  rcases hrp : runPipeline env npath st.world with ⟨w1, r⟩
  have hmem : npath ∉ st.processed := by simpa using h
  constructor
  · intro e he
    have he' : r = Except.error e := he
    subst he'
    simp [mainLoop, mainStep, hmem, hrp]
  · intro u hu
    have hu' : r = Except.ok u := hu
    subst hu'
    simp [mainLoop, mainStep, hmem, hrp]

/-- C1 witness: the theorem applied in the concrete environment `envW1`,
where reading `./keep/bad.json` throws and `./keep/good.json` succeeds. -/
theorem orchestrator_per_file_isolation_wit :
    (mainLoop envW1 stW1 [str "./keep/bad.json"] =
        mainLoop envW1
          { stW1 with
            world := (runPipeline envW1 (str "./keep/bad.json") stW1.world).1 }
          []) ∧
      (mainLoop envW1 stW1 [str "./keep/good.json"] =
        mainLoop envW1
          { processed := stW1.processed ++ [str "./keep/good.json"],
            count := stW1.count + 1,
            world := (runPipeline envW1 (str "./keep/good.json") stW1.world).1 }
          []) :=
  ⟨(orchestrator_per_file_isolation envW1 stW1 (str "./keep/bad.json") []
      rfl).1 (str "bad json") rfl,
   (orchestrator_per_file_isolation envW1 stW1 (str "./keep/good.json") []
      rfl).2 () rfl⟩

/-- C10: when the pipeline fails after the PDF render has completed (the
Markdown write throws), the iteration leaves the ledger working set and the
success counter unchanged, yet the rendered PDF remains among the files of
`generated/` — error handling is atomic for the ledger but not for output
files. -/
theorem pdf_survives_md_failure (env : Env) (st : RunState)
    (npath : List Char) (note : RawNote) (pn : ParsedNote) (e : List Char)
    (h0 : st.processed.contains npath = false)
    (h1 : env.read npath = Except.ok note)
    (h2 : parseNote npath note = some pn)
    (h3 : env.pdf pn.filename (notePdfTpl pn) = Except.ok ())
    (h4 : env.md pn.filename pn.content = Except.error e) :
    (mainStep env st npath).processed = st.processed ∧
      (mainStep env st npath).count = st.count ∧
      (pn.filename, notePdfTpl pn) ∈ (mainStep env st npath).world.pdfs := by
  have hrp : runPipeline env npath st.world =
      ({ st.world with
         pdfs := setFile st.world.pdfs pn.filename (notePdfTpl pn) },
       Except.error e) := by
    rw [runPipeline, h1]
    simp only [h2, h3, h4]
  have hmem : npath ∉ st.processed := by simpa using h0
  refine ⟨?_, ?_, ?_⟩ <;> simp [mainStep, hmem, hrp, setFile]

/-- C10 witness: the theorem applied in the concrete environment `envW10`
(read and render succeed, Markdown write throws `"disk full"`). -/
theorem pdf_survives_md_failure_wit :
    (mainStep envW10 stW10 (str "./keep/n.json")).processed =
        stW10.processed ∧
      (mainStep envW10 stW10 (str "./keep/n.json")).count = stW10.count ∧
      (pnW10.filename, notePdfTpl pnW10) ∈
        (mainStep envW10 stW10 (str "./keep/n.json")).world.pdfs :=
  pdf_survives_md_failure envW10 stW10 (str "./keep/n.json") noteGood pnW10
    (str "disk full") rfl rfl rfl rfl rfl

end KeepToPdf
